import Mathlib

/-!
Verification of the opaque-URL proxy and HTML link-rewriting engine
(`src/app.py`).  Python strings are embedded as `List Char` (Unicode
scalar values); byte strings as `List Nat` with values below 256.

Modelling notes on fidelity boundaries, stated once here:
* `(?i)` case-insensitivity, `\s`, `\w`/`\b` and `\d` are modelled over
  their ASCII meanings; the documents and URLs in the claims are ASCII.
* `base64.urlsafe_b64decode` is modelled after CPython's
  `binascii.a2b_base64` in non-strict mode: ASCII characters outside the
  alphabet are skipped, `=` ends decoding once a quad can be completed,
  and a leftover partial quad is an error.
-/

/-- Python `str` values are sequences of Unicode scalar values. -/
abbrev Str := List Char

/-- UTF-8 encoding of one Unicode scalar value `n` (Python
`str.encode("utf-8")`, per scalar).  Arithmetic (`/`, `%`) is used in
place of shifts and masks. -/
def utf8EncodeChar (n : Nat) : List Nat :=
  if n < 128 then [n]
  else if n < 2048 then [192 + n / 64, 128 + n % 64]
  else if n < 65536 then [224 + n / 4096, 128 + n / 64 % 64, 128 + n % 64]
  else [240 + n / 262144, 128 + n / 4096 % 64, 128 + n / 64 % 64, 128 + n % 64]

/-- UTF-8 encoding of a string (Python `s.encode("utf-8")`).  Total on
`List Char` because Lean `Char` excludes exactly the surrogate values on
which Python's encoder raises. -/
def utf8Encode (s : Str) : List Nat :=
  (s.map (fun c => utf8EncodeChar c.toNat)).flatten

/-- Decode one UTF-8 scalar from the front of a byte string, returning
its code point and the remaining bytes.  Rejects truncated sequences,
stray continuations, overlong forms, surrogates and values above
0x10FFFF, exactly as CPython's strict codec does. -/
def utf8DecodeOne : List Nat → Option (Nat × List Nat)
  | [] => none
  | b :: rest =>
    if b < 128 then some (b, rest)
    else if b < 194 then none
    else if b < 224 then
      match rest with
      | b1 :: rest1 =>
        if 128 ≤ b1 ∧ b1 < 192 then some ((b - 192) * 64 + (b1 - 128), rest1)
        else none
      | [] => none
    else if b < 240 then
      match rest with
      | b1 :: b2 :: rest2 =>
        if 128 ≤ b1 ∧ b1 < 192 ∧ 128 ≤ b2 ∧ b2 < 192 then
          if (b - 224) * 4096 + (b1 - 128) * 64 + (b2 - 128) < 2048 ∨
              (55296 ≤ (b - 224) * 4096 + (b1 - 128) * 64 + (b2 - 128) ∧
                (b - 224) * 4096 + (b1 - 128) * 64 + (b2 - 128) < 57344) then none
          else some ((b - 224) * 4096 + (b1 - 128) * 64 + (b2 - 128), rest2)
        else none
      | _ => none
    else if b < 245 then
      match rest with
      | b1 :: b2 :: b3 :: rest3 =>
        if 128 ≤ b1 ∧ b1 < 192 ∧ 128 ≤ b2 ∧ b2 < 192 ∧ 128 ≤ b3 ∧ b3 < 192 then
          if (b - 240) * 262144 + (b1 - 128) * 4096 + (b2 - 128) * 64 + (b3 - 128) < 65536 ∨
              1114112 ≤ (b - 240) * 262144 + (b1 - 128) * 4096 + (b2 - 128) * 64 + (b3 - 128) then
            none
          else some ((b - 240) * 262144 + (b1 - 128) * 4096 + (b2 - 128) * 64 + (b3 - 128), rest3)
        else none
      | _ => none
    else none

/-- Decode a whole byte string as UTF-8, one scalar at a time.  The
fuel argument only bounds the recursion; each step consumes at least
one byte, so fuel equal to the byte count never runs out. -/
def utf8DecodeGo : Nat → List Nat → Option Str
  | _, [] => some []
  | 0, _ :: _ => none
  | fuel + 1, b :: rest =>
    match utf8DecodeOne (b :: rest) with
    | none => none
    | some (n, r) => (utf8DecodeGo fuel r).map (fun t => Char.ofNat n :: t)

/-- Strict UTF-8 decoding of a byte string (Python `bytes.decode("utf-8")`). -/
def utf8Decode (l : List Nat) : Option Str := utf8DecodeGo l.length l

/-- The URL-safe base64 alphabet (standard alphabet with `+`,`/`
replaced by `-`,`_`), as used by `base64.urlsafe_b64encode`. -/
def urlsafeAlpha : Str :=
  "ABCDEFGHIJKLMNOPQRSTUVWXYZabcdefghijklmnopqrstuvwxyz0123456789-_".data

/-- The standard base64 alphabet, used for decoding after the
urlsafe-to-standard character translation. -/
def stdAlpha : Str :=
  "ABCDEFGHIJKLMNOPQRSTUVWXYZabcdefghijklmnopqrstuvwxyz0123456789+/".data

/-- Symbol for a 6-bit value in the urlsafe alphabet. -/
def encChar (n : Nat) : Char := urlsafeAlpha.getD n (Char.ofNat 65)

/-- Base64-encode a byte string, 3 bytes to 4 symbols, with `=` padding,
as `base64.urlsafe_b64encode` does (padding is NOT stripped). -/
def b64encodeBytes : List Nat → Str
  | [] => []
  | [a] => [encChar (a / 4), encChar (a % 4 * 16), Char.ofNat 61, Char.ofNat 61]
  | [a, b] =>
    [encChar (a / 4), encChar (a % 4 * 16 + b / 16), encChar (b % 16 * 4), Char.ofNat 61]
  | a :: b :: c :: rest =>
    encChar (a / 4) :: encChar (a % 4 * 16 + b / 16) ::
      encChar (b % 16 * 4 + c / 64) :: encChar (c % 64) :: b64encodeBytes rest

/-- Source `b64`: `base64.urlsafe_b64encode(s.encode("utf-8")).decode("ascii")`. -/
def b64 (s : Str) : Str := b64encodeBytes (utf8Encode s)

/-- The urlsafe-to-standard translation applied by
`base64.urlsafe_b64decode` before decoding. -/
def translateUrlsafe (c : Char) : Char :=
  if c = Char.ofNat 45 then Char.ofNat 43
  else if c = Char.ofNat 95 then Char.ofNat 47
  else c

/-- Index of a character in a list (first occurrence). -/
def indexIn (c : Char) : Str → Option Nat
  | [] => none
  | d :: t => if d = c then some 0 else (indexIn c t).map (· + 1)

/-- 6-bit value of a standard-alphabet symbol; `none` for characters
outside the alphabet (skipped by the non-strict decoder). -/
def stdVal (c : Char) : Option Nat := indexIn c stdAlpha

/-- CPython `binascii.a2b_base64` in non-strict mode: state is the
position in the current quad, the pending bits (`leftchar`) and the
count of pending pad characters. -/
def a2bGo : Str → Nat → Nat → Nat → Option (List Nat)
  | [], quad, _, _ => if quad = 0 then some [] else none
  | ch :: rest, quad, left, pads =>
    if ch = Char.ofNat 61 then
      if 2 ≤ quad then
        if 4 ≤ quad + pads + 1 then some []
        else a2bGo rest quad left (pads + 1)
      else a2bGo rest quad left pads
    else
      match stdVal ch with
      | none => a2bGo rest quad left pads
      | some v =>
        match quad with
        | 0 => a2bGo rest 1 v 0
        | 1 => (a2bGo rest 2 (v % 16) 0).map (fun t => (left * 4 + v / 16) :: t)
        | 2 => (a2bGo rest 3 (v % 4) 0).map (fun t => (left * 16 + v / 4) :: t)
        | _ + 3 => (a2bGo rest 0 0 0).map (fun t => (left * 64 + v) :: t)

/-- Base64-decode a character string to bytes (`base64.urlsafe_b64decode`
after the ASCII re-encoding step). -/
def a2bBase64 (s : Str) : Option (List Nat) := a2bGo (s.map translateUrlsafe) 0 0 0

/-- Source `ub64`: `base64.urlsafe_b64decode(s.encode("ascii")).decode("utf-8")`,
returning `none` where the Python code raises (non-ASCII input, partial
base64 quad, invalid UTF-8 in the decoded bytes). -/
def ub64 (s : Str) : Option Str :=
  if s.all (fun c => c.toNat < 128) then (a2bBase64 s).bind utf8Decode
  else none

/-! ### Codec round-trip lemmas -/

theorem utf8DecodeOne_enc (n : Nat) (hv : n.isValidChar) (bs : List Nat) :
    utf8DecodeOne (utf8EncodeChar n ++ bs) = some (n, bs) := by
  have hrange : n < 55296 ∨ (57343 < n ∧ n < 1114112) := hv
  rcases Nat.lt_or_ge n 128 with h1 | h1
  · simp only [utf8EncodeChar, if_pos h1, List.cons_append, List.nil_append, utf8DecodeOne]
  · rcases Nat.lt_or_ge n 2048 with h2 | h2
    · simp only [utf8EncodeChar, if_neg (by omega : ¬ n < 128), if_pos h2, List.cons_append,
        List.nil_append, utf8DecodeOne]
      rw [if_neg (by omega), if_neg (by omega), if_pos (by omega), if_pos (by omega)]
      have hval : (192 + n / 64 - 192) * 64 + (128 + n % 64 - 128) = n := by omega
      rw [hval]
    · rcases Nat.lt_or_ge n 65536 with h3 | h3
      · simp only [utf8EncodeChar, if_neg (by omega : ¬ n < 128), if_neg (by omega : ¬ n < 2048),
          if_pos h3, List.cons_append, List.nil_append, utf8DecodeOne]
        rw [if_neg (by omega), if_neg (by omega), if_neg (by omega), if_pos (by omega),
          if_pos (by omega)]
        have hval : (224 + n / 4096 - 224) * 4096 + (128 + n / 64 % 64 - 128) * 64 +
            (128 + n % 64 - 128) = n := by omega
        rw [hval, if_neg (by omega)]
      · simp only [utf8EncodeChar, if_neg (by omega : ¬ n < 128), if_neg (by omega : ¬ n < 2048),
          if_neg (by omega : ¬ n < 65536), List.cons_append, List.nil_append, utf8DecodeOne]
        rw [if_neg (by omega), if_neg (by omega), if_neg (by omega), if_neg (by omega),
          if_pos (by omega), if_pos (by omega)]
        have hval : (240 + n / 262144 - 240) * 262144 + (128 + n / 4096 % 64 - 128) * 4096 +
            (128 + n / 64 % 64 - 128) * 64 + (128 + n % 64 - 128) = n := by omega
        rw [hval, if_neg (by omega)]

theorem utf8EncodeChar_len (n : Nat) : 1 ≤ (utf8EncodeChar n).length := by
  unfold utf8EncodeChar
  split_ifs <;> simp

theorem utf8DecodeGo_enc (s : Str) : ∀ fuel, (utf8Encode s).length ≤ fuel →
    utf8DecodeGo fuel (utf8Encode s) = some s := by
  induction s with
  | nil => intro fuel _; simp [utf8Encode, utf8DecodeGo]
  | cons c t ih =>
    intro fuel hf
    have hsplit : utf8Encode (c :: t) = utf8EncodeChar c.toNat ++ utf8Encode t := by
      simp [utf8Encode]
    have hlen1 : 1 ≤ (utf8EncodeChar c.toNat).length := utf8EncodeChar_len c.toNat
    obtain ⟨b, ebs, heb⟩ : ∃ b ebs, utf8EncodeChar c.toNat = b :: ebs := by
      rcases hchar : utf8EncodeChar c.toNat with _ | ⟨b, ebs⟩
      · rw [hchar] at hlen1; simp at hlen1
      · exact ⟨b, ebs, rfl⟩
    rw [hsplit] at hf ⊢
    rw [heb, List.cons_append] at hf ⊢
    cases fuel with
    | zero => simp at hf
    | succ f =>
      have hone : utf8DecodeOne (b :: (ebs ++ utf8Encode t)) = some (c.toNat, utf8Encode t) := by
        rw [show b :: (ebs ++ utf8Encode t) = utf8EncodeChar c.toNat ++ utf8Encode t from by
          rw [heb, List.cons_append]]
        exact utf8DecodeOne_enc c.toNat c.valid (utf8Encode t)
      simp only [utf8DecodeGo, hone]
      have hlt : (utf8Encode t).length ≤ f := by
        have := List.length_append (ebs) (utf8Encode t)
        simp only [List.length_cons] at hf
        omega
      rw [ih f hlt]
      simp [Char.ofNat_toNat]

theorem utf8Decode_utf8Encode (s : Str) : utf8Decode (utf8Encode s) = some s := by
  unfold utf8Decode
  exact utf8DecodeGo_enc s (utf8Encode s).length le_rfl

theorem stdVal_translate_fin : ∀ v : Fin 64,
    stdVal (translateUrlsafe (encChar v.val)) = some v.val ∧
      translateUrlsafe (encChar v.val) ≠ Char.ofNat 61 := by decide

theorem stdVal_translate_encChar (v : Nat) (h : v < 64) :
    stdVal (translateUrlsafe (encChar v)) = some v := (stdVal_translate_fin ⟨v, h⟩).1

theorem translate_encChar_ne (v : Nat) (h : v < 64) :
    translateUrlsafe (encChar v) ≠ Char.ofNat 61 := (stdVal_translate_fin ⟨v, h⟩).2

theorem translate_pad : translateUrlsafe (Char.ofNat 61) = Char.ofNat 61 := by decide

theorem a2bGo_encode (N : Nat) : ∀ bs : List Nat, bs.length ≤ N → (∀ b ∈ bs, b < 256) →
    a2bGo ((b64encodeBytes bs).map translateUrlsafe) 0 0 0 = some bs := by
  induction N with
  | zero =>
    intro bs hlen _
    match bs with
    | [] => simp [b64encodeBytes, a2bGo]
    | _ :: _ => simp at hlen
  | succ n ih =>
    intro bs hlen hb
    match bs with
    | [] => simp [b64encodeBytes, a2bGo]
    | [a] =>
      have ha : a < 256 := hb a (by simp)
      have hsv1 := stdVal_translate_encChar (a / 4) (by omega)
      have hsv2 := stdVal_translate_encChar (a % 4 * 16) (by omega)
      have hne1 := translate_encChar_ne (a / 4) (by omega)
      have hne2 := translate_encChar_ne (a % 4 * 16) (by omega)
      simp [b64encodeBytes, a2bGo, translate_pad, hsv1, hsv2, hne1, hne2]
      omega
    | [a, b] =>
      have ha : a < 256 := hb a (by simp)
      have hbb : b < 256 := hb b (by simp)
      have hsv1 := stdVal_translate_encChar (a / 4) (by omega)
      have hsv2 := stdVal_translate_encChar (a % 4 * 16 + b / 16) (by omega)
      have hsv3 := stdVal_translate_encChar (b % 16 * 4) (by omega)
      have hne1 := translate_encChar_ne (a / 4) (by omega)
      have hne2 := translate_encChar_ne (a % 4 * 16 + b / 16) (by omega)
      have hne3 := translate_encChar_ne (b % 16 * 4) (by omega)
      simp [b64encodeBytes, a2bGo, translate_pad, hsv1, hsv2, hsv3, hne1, hne2, hne3]
      omega
    | a :: b :: c :: rest =>
      have ha : a < 256 := hb a (by simp)
      have hbb : b < 256 := hb b (by simp)
      have hc : c < 256 := hb c (by simp)
      have hrl : rest.length ≤ n := by simp [List.length_cons] at hlen; omega
      have hrest := ih rest hrl (fun x hx =>
        hb x (List.mem_cons_of_mem _ (List.mem_cons_of_mem _ (List.mem_cons_of_mem _ hx))))
      have hsv1 := stdVal_translate_encChar (a / 4) (by omega)
      have hsv2 := stdVal_translate_encChar (a % 4 * 16 + b / 16) (by omega)
      have hsv3 := stdVal_translate_encChar (b % 16 * 4 + c / 64) (by omega)
      have hsv4 := stdVal_translate_encChar (c % 64) (by omega)
      have hne1 := translate_encChar_ne (a / 4) (by omega)
      have hne2 := translate_encChar_ne (a % 4 * 16 + b / 16) (by omega)
      have hne3 := translate_encChar_ne (b % 16 * 4 + c / 64) (by omega)
      have hne4 := translate_encChar_ne (c % 64) (by omega)
      simp [b64encodeBytes, a2bGo, translate_pad, hsv1, hsv2, hsv3, hsv4,
        hne1, hne2, hne3, hne4, hrest]
      refine ⟨by omega, by omega, by omega⟩

theorem a2b_b64encodeBytes (bs : List Nat) (hb : ∀ b ∈ bs, b < 256) :
    a2bGo ((b64encodeBytes bs).map translateUrlsafe) 0 0 0 = some bs :=
  a2bGo_encode bs.length bs le_rfl hb

theorem encChar_mem (n : Nat) : encChar n ∈ urlsafeAlpha := by
  unfold encChar
  rw [List.getD_eq_getElem?_getD]
  rcases h : urlsafeAlpha[n]? with _ | c
  · simp only [Option.getD_none]
    decide
  · simp only [Option.getD_some]
    exact List.getElem?_mem h

theorem b64encodeBytes_mem (N : Nat) : ∀ bs : List Nat, bs.length ≤ N →
    ∀ ch ∈ b64encodeBytes bs, ch ∈ urlsafeAlpha ∨ ch = Char.ofNat 61 := by
  induction N with
  | zero =>
    intro bs hlen ch hch
    match bs with
    | [] => simp [b64encodeBytes] at hch
    | _ :: _ => simp at hlen
  | succ n ih =>
    intro bs hlen ch hch
    match bs with
    | [] => simp [b64encodeBytes] at hch
    | [a] =>
      simp only [b64encodeBytes, List.mem_cons, List.not_mem_nil, or_false] at hch
      rcases hch with rfl | rfl | rfl | rfl
      · exact Or.inl (encChar_mem _)
      · exact Or.inl (encChar_mem _)
      · exact Or.inr rfl
      · exact Or.inr rfl
    | [a, b] =>
      simp only [b64encodeBytes, List.mem_cons, List.not_mem_nil, or_false] at hch
      rcases hch with rfl | rfl | rfl | rfl
      · exact Or.inl (encChar_mem _)
      · exact Or.inl (encChar_mem _)
      · exact Or.inl (encChar_mem _)
      · exact Or.inr rfl
    | a :: b :: c :: rest =>
      simp only [b64encodeBytes, List.mem_cons] at hch
      rcases hch with rfl | rfl | rfl | rfl | hch
      · exact Or.inl (encChar_mem _)
      · exact Or.inl (encChar_mem _)
      · exact Or.inl (encChar_mem _)
      · exact Or.inl (encChar_mem _)
      · exact ih rest (by simp [List.length_cons] at hlen; omega) ch hch

theorem b64_mem (u : Str) : ∀ ch ∈ b64 u, ch ∈ urlsafeAlpha ∨ ch = Char.ofNat 61 :=
  b64encodeBytes_mem (utf8Encode u).length (utf8Encode u) le_rfl

theorem urlsafeAlpha_ascii : ∀ ch ∈ urlsafeAlpha, ch.toNat < 128 := by decide

theorem b64_ascii (u : Str) : ∀ ch ∈ b64 u, ch.toNat < 128 := by
  intro ch hch
  rcases b64_mem u ch hch with h | rfl
  · exact urlsafeAlpha_ascii ch h
  · decide

theorem utf8EncodeChar_lt (n : Nat) (hv : n.isValidChar) : ∀ b ∈ utf8EncodeChar n, b < 256 := by
  have hrange : n < 55296 ∨ (57343 < n ∧ n < 1114112) := hv
  intro b hb
  unfold utf8EncodeChar at hb
  split_ifs at hb with h1 h2 h3 <;> simp only [List.mem_cons, List.not_mem_nil, or_false] at hb
  · omega
  · rcases hb with rfl | rfl <;> omega
  · rcases hb with rfl | rfl | rfl <;> omega
  · rcases hb with rfl | rfl | rfl | rfl <;> omega

theorem utf8Encode_lt (s : Str) : ∀ b ∈ utf8Encode s, b < 256 := by
  intro b hb
  simp only [utf8Encode, List.mem_flatten, List.mem_map] at hb
  obtain ⟨l, ⟨c, _, rfl⟩, hbl⟩ := hb
  exact utf8EncodeChar_lt c.toNat c.valid b hbl

/-- C1: for every string `u` (in particular every valid absolute URL),
decoding the token produced by encoding `u` yields `u` again:
`ub64 (b64 u) = some u`. -/
theorem c1_roundtrip (u : Str) : ub64 (b64 u) = some u := by
  have hascii : (b64 u).all (fun c => c.toNat < 128) = true := by
    simp only [List.all_eq_true, decide_eq_true_eq]
    exact b64_ascii u
  unfold ub64
  rw [if_pos hascii]
  unfold a2bBase64 b64
  rw [a2b_b64encodeBytes (utf8Encode u) (utf8Encode_lt u)]
  simp [utf8Decode_utf8Encode]

/-- C4 counterexample: the token for `"a"` is `"YQ=="`, which contains
the `=` character (code 61); the encoder pads, contradicting the claim
that tokens never contain `=`. -/
theorem c4_counterexample :
    b64 "a".data = "YQ==".data ∧ Char.ofNat 61 ∈ b64 "a".data := by decide

/-- C4 amended: every character of every token is either in the urlsafe
base64 alphabet or the padding character `=`; in particular tokens never
contain a double quote (34), a single quote (39) or an ampersand (38),
but they may contain `=` as padding. -/
theorem urlsafeAlpha_attrSafe :
    ∀ ch ∈ urlsafeAlpha, ch.toNat ≠ 34 ∧ ch.toNat ≠ 39 ∧ ch.toNat ≠ 38 := by decide

theorem c4_amended (u : Str) : ∀ ch ∈ b64 u,
    (ch ∈ urlsafeAlpha ∨ ch = Char.ofNat 61) ∧
      ch.toNat ≠ 34 ∧ ch.toNat ≠ 39 ∧ ch.toNat ≠ 38 := by
  intro ch hch
  refine ⟨b64_mem u ch hch, ?_⟩
  rcases b64_mem u ch hch with h | rfl
  · exact urlsafeAlpha_attrSafe ch h
  · decide

theorem c4_witness :
    Char.ofNat 61 ∈ b64 "a".data ∧
      ((Char.ofNat 61 ∈ urlsafeAlpha ∨ Char.ofNat 61 = Char.ofNat 61) ∧
        (Char.ofNat 61).toNat ≠ 34 ∧ (Char.ofNat 61).toNat ≠ 39 ∧ (Char.ofNat 61).toNat ≠ 38) :=
  ⟨by decide, c4_amended "a".data (Char.ofNat 61) (by decide)⟩

/-- C5 counterexample: `ub64` does not fail on the empty string (it
returns the empty string), and does not fail on `"!"`, a string made of
a character outside the token alphabet (non-alphabet ASCII characters
are discarded by the non-strict base64 decoder). -/
theorem c5_counterexample : ub64 "".data = some "".data ∧ ub64 "!".data = some "".data := by
  decide

/-- C5 amended: `decode` fails on every string containing a non-ASCII
character, on strings whose alphabet characters leave an incomplete
base64 quad (e.g. `"A"`), and on strings whose decoded bytes are not
valid UTF-8 (e.g. `"wIA="`); but it returns the empty string on the
empty token, and ASCII characters outside the alphabet are discarded
rather than rejected (e.g. `"Y!Q=="` decodes like `"YQ=="`).  `encode`
never fails (it is total on Unicode-scalar strings). -/
theorem c5_amended :
    (∀ s : Str, ∀ c ∈ s, 128 ≤ c.toNat → ub64 s = none) ∧
      ub64 "".data = some "".data ∧
      ub64 "A".data = none ∧
      ub64 "wIA=".data = none ∧
      ub64 "Y!Q==".data = some "a".data := by
  refine ⟨?_, by decide, by decide, by decide, by decide⟩
  intro s c hc h128
  unfold ub64
  rw [if_neg]
  intro hall
  rw [List.all_eq_true] at hall
  have := hall c hc
  simp only [decide_eq_true_eq] at this
  omega

theorem c5_witness :
    Char.ofNat 200 ∈ [Char.ofNat 200] ∧ 128 ≤ (Char.ofNat 200).toNat ∧
      ub64 [Char.ofNat 200] = none :=
  ⟨by decide, by decide, c5_amended.1 [Char.ofNat 200] (Char.ofNat 200) (by decide) (by decide)⟩

/-! ### URL resolution: a port of `urllib.parse.urljoin` and the parsing
functions it relies on.  Validation errors that `urlsplit` can raise for
malformed bracketed IPv6 hosts are outside the model (no URL in this
development contains brackets). -/

/-- Split a string at the first character satisfying `p`; `none` when no
character matches.  The matched character is dropped. -/
def splitOnFirst (p : Char → Bool) : Str → Option (Str × Str)
  | [] => none
  | c :: t =>
    if p c then some ([], t)
    else (splitOnFirst p t).map (fun r => (c :: r.1, r.2))

/-- Python `s.split(sep)` on a single-character separator. -/
def splitAll (sep : Char) : Str → List Str
  | [] => [[]]
  | c :: t =>
    let r := splitAll sep t
    if c = sep then [] :: r
    else
      match r with
      | [] => [[c]]
      | h :: t2 => (c :: h) :: t2

/-- ASCII lowercasing (the only case Python's `.lower()` meets on
scheme strings, which are restricted to ASCII). -/
def lowerAscii (c : Char) : Char :=
  if 65 ≤ c.toNat ∧ c.toNat ≤ 90 then Char.ofNat (c.toNat + 32) else c

/-- Lowercase a string, ASCII-wise. -/
def lowerStr (s : Str) : Str := s.map lowerAscii

/-- ASCII letter test (`c.isascii() and c.isalpha()`). -/
def isAsciiAlpha (c : Char) : Bool :=
  if (65 ≤ c.toNat ∧ c.toNat ≤ 90) ∨ (97 ≤ c.toNat ∧ c.toNat ≤ 122) then true else false

/-- `urllib.parse.scheme_chars`. -/
def schemeChars : Str :=
  "abcdefghijklmnopqrstuvwxyzABCDEFGHIJKLMNOPQRSTUVWXYZ0123456789+-.".data

/-- `urllib.parse.uses_relative`. -/
def usesRelative : List Str :=
  ["", "ftp", "http", "gopher", "nntp", "imap", "wais", "file", "https", "shttp", "mms",
    "prospero", "rtsp", "rtsps", "rtspu", "sftp", "svn", "svn+ssh", "ws", "wss"].map String.data

/-- `urllib.parse.uses_netloc`. -/
def usesNetloc : List Str :=
  ["", "ftp", "http", "gopher", "nntp", "telnet", "imap", "wais", "file", "mms", "https",
    "shttp", "snews", "prospero", "rtsp", "rtsps", "rtspu", "rsync", "svn", "svn+ssh",
    "sftp", "nfs", "git", "git+ssh", "ws", "wss"].map String.data

/-- `urllib.parse.uses_params`. -/
def usesParams : List Str :=
  ["", "ftp", "hdl", "prospero", "http", "imap", "https", "shttp", "rtsp", "rtsps",
    "rtspu", "sip", "sips", "mms", "sftp", "tel"].map String.data

/-- Scheme detection of `urlsplit`: a leading ASCII letter, scheme
characters up to the first `:`. -/
def parseScheme (url : Str) : Option (Str × Str) :=
  match splitOnFirst (fun c => c = Char.ofNat 58) url with
  | none => none
  | some (before, after) =>
    match before with
    | [] => none
    | c0 :: _ =>
      if c0.toNat < 128 ∧ isAsciiAlpha c0 = true ∧
          before.all (fun c => schemeChars.contains c) = true then
        some (before, after)
      else none

/-- `urllib.parse._splitnetloc`: the netloc runs to the first of
`/`, `?`, `#`. -/
def splitNetloc (l : Str) : Str × Str :=
  (l.takeWhile (fun c => ¬(c = Char.ofNat 47 ∨ c = Char.ofNat 63 ∨ c = Char.ofNat 35)),
    l.dropWhile (fun c => ¬(c = Char.ofNat 47 ∨ c = Char.ofNat 63 ∨ c = Char.ofNat 35)))

/-- Strip WHATWG C0-control-or-space characters from both ends. -/
def stripC0 (s : Str) : Str :=
  ((s.dropWhile (fun c => c.toNat ≤ 32)).reverse.dropWhile (fun c => c.toNat ≤ 32)).reverse

/-- Remove the unsafe URL bytes tab, CR, LF everywhere. -/
def removeUnsafe (s : Str) : Str :=
  s.filter (fun c => ¬(c.toNat = 9 ∨ c.toNat = 13 ∨ c.toNat = 10))

/-- Result of `urlsplit` (absent components are the empty string, as in
Python). -/
structure UrlSplitRes where
  scheme : Str
  netloc : Str
  path : Str
  query : Str
  fragment : Str
deriving Repr, DecidableEq

/-- `urllib.parse.urlsplit` with `allow_fragments=True`. -/
def urlsplit (url0 scheme0 : Str) : UrlSplitRes :=
  let url1 := removeUnsafe (url0.dropWhile (fun c => c.toNat ≤ 32))
  let dflt := removeUnsafe (stripC0 scheme0)
  let sr :=
    match parseScheme url1 with
    | some (s, r) => (lowerStr s, r)
    | none => (dflt, url1)
  let nl :=
    if ("//".data).isPrefixOf sr.2 then splitNetloc (sr.2.drop 2) else ([], sr.2)
  let fr :=
    match splitOnFirst (fun c => c = Char.ofNat 35) nl.2 with
    | some (a, b) => (a, b)
    | none => (nl.2, [])
  let qr :=
    match splitOnFirst (fun c => c = Char.ofNat 63) fr.1 with
    | some (a, b) => (a, b)
    | none => (fr.1, [])
  ⟨sr.1, nl.1, qr.1, qr.2, fr.2⟩

/-- Result of `urlparse` (split result plus `params`). -/
structure UrlParseRes where
  scheme : Str
  netloc : Str
  path : Str
  params : Str
  query : Str
  fragment : Str
deriving Repr, DecidableEq

/-- `urllib.parse._splitparams`. -/
def splitparams (path : Str) : Str × Str :=
  if Char.ofNat 47 ∈ path then
    let lastSeg := (path.reverse.takeWhile (fun c => ¬ c = Char.ofNat 47)).reverse
    let front := path.take (path.length - lastSeg.length)
    match splitOnFirst (fun c => c = Char.ofNat 59) lastSeg with
    | none => (path, [])
    | some (a, b) => (front ++ a, b)
  else
    match splitOnFirst (fun c => c = Char.ofNat 59) path with
    | none => (path, [])
    | some (a, b) => (a, b)

/-- `urllib.parse.urlparse` with `allow_fragments=True`. -/
def urlparse (url dflt : Str) : UrlParseRes :=
  let s := urlsplit url dflt
  if s.scheme ∈ usesParams ∧ Char.ofNat 59 ∈ s.path then
    let pp := splitparams s.path
    ⟨s.scheme, s.netloc, pp.1, pp.2, s.query, s.fragment⟩
  else ⟨s.scheme, s.netloc, s.path, [], s.query, s.fragment⟩

/-- `urllib.parse.urlunsplit`. -/
def urlunsplit (scheme netloc path query fragment : Str) : Str :=
  let url1 :=
    if netloc ≠ [] ∨ (scheme ≠ [] ∧ scheme ∈ usesNetloc ∧ ¬ ("//".data).isPrefixOf path) then
      let p2 := if path ≠ [] ∧ ¬ ("/".data).isPrefixOf path then Char.ofNat 47 :: path else path
      "//".data ++ netloc ++ p2
    else path
  let url2 := if scheme ≠ [] then scheme ++ [Char.ofNat 58] ++ url1 else url1
  let url3 := if query ≠ [] then url2 ++ [Char.ofNat 63] ++ query else url2
  if fragment ≠ [] then url3 ++ [Char.ofNat 35] ++ fragment else url3

/-- `urllib.parse.urlunparse`. -/
def urlunparse (scheme netloc path params query fragment : Str) : Str :=
  urlunsplit scheme netloc
    (if params ≠ [] then path ++ [Char.ofNat 59] ++ params else path) query fragment

/-- `urllib.parse.urljoin` (with `allow_fragments=True`). -/
def urljoin (base url : Str) : Str :=
  if base = [] then url
  else if url = [] then base
  else
    let b := urlparse base []
    let u := urlparse url b.scheme
    if u.scheme ≠ b.scheme ∨ ¬ u.scheme ∈ usesRelative then url
    else if u.scheme ∈ usesNetloc ∧ u.netloc ≠ [] then
      urlunparse u.scheme u.netloc u.path u.params u.query u.fragment
    else
      let netloc := if u.scheme ∈ usesNetloc then b.netloc else u.netloc
      if u.path = [] ∧ u.params = [] then
        urlunparse u.scheme netloc b.path b.params
          (if u.query = [] then b.query else u.query) u.fragment
      else
        let baseParts0 := splitAll (Char.ofNat 47) b.path
        let baseParts :=
          if baseParts0.getLast? = some [] then baseParts0 else baseParts0.dropLast
        let psegs := splitAll (Char.ofNat 47) u.path
        let segments :=
          if ("/".data).isPrefixOf u.path then psegs
          else
            match baseParts ++ psegs with
            | [] => []
            | [x] => [x]
            | x :: y :: restc =>
              x :: (((y :: restc).dropLast).filter (fun seg => seg ≠ []) ++
                [(y :: restc).getLast (by simp)])
        let res0 := segments.foldl
          (fun acc seg =>
            if seg = "..".data then acc.dropLast
            else if seg = ".".data then acc
            else acc ++ [seg]) []
        let res1 :=
          if segments.getLast? = some ".".data ∨ segments.getLast? = some "..".data then
            res0 ++ [[]]
          else res0
        let rpath0 := List.intercalate [Char.ofNat 47] res1
        let rpath := if rpath0 = [] then [Char.ofNat 47] else rpath0
        urlunparse u.scheme netloc rpath u.params u.query u.fragment

/-- Source `absolutize(url, base)`: `urllib.parse.urljoin(base, url)`. -/
def absolutize (url base : Str) : Str := urljoin base url

/-! ### HTML rewriter (`rewrite_html`): the two `re.sub` passes of the
source, modelled as left-to-right non-overlapping scans.  The attribute
alternation `src|href|action|data-src|data-href` is prefix-free and the
pattern after the name is deterministic, so ordered first-match equals
the regex engine's backtracking behaviour. -/

/-- Python regex `\w` over ASCII. -/
def isWordChar (c : Char) : Bool :=
  if (65 ≤ c.toNat ∧ c.toNat ≤ 90) ∨ (97 ≤ c.toNat ∧ c.toNat ≤ 122) ∨
      (48 ≤ c.toNat ∧ c.toNat ≤ 57) ∨ c.toNat = 95 then true
  else false

/-- Python regex `\s` over ASCII. -/
def isSpaceB (c : Char) : Bool :=
  if c.toNat = 32 ∨ c.toNat = 9 ∨ c.toNat = 10 ∨ c.toNat = 13 ∨ c.toNat = 11 ∨ c.toNat = 12 then
    true
  else false

/-- Python regex `\d` over ASCII. -/
def isDigitB (c : Char) : Bool := if 48 ≤ c.toNat ∧ c.toNat ≤ 57 then true else false

/-- The `\b` assertion before a word character: the previous character
(if any) is not a word character.  The pattern continues with a letter,
so a position before a non-word character never matches anyway. -/
def wordBoundary (prev : Option Char) (c : Char) : Bool :=
  match prev with
  | none => isWordChar c
  | some p => !(isWordChar p) && isWordChar c

/-- Case-insensitive literal match (the literal is given lowercase);
returns the matched text as written and the rest. -/
def matchCI : Str → Str → Option (Str × Str)
  | [], s => some ([], s)
  | _ :: _, [] => none
  | n :: ns, c :: cs =>
    if lowerAscii c = n then (matchCI ns cs).map (fun r => (c :: r.1, r.2)) else none

/-- Source `ABS_ATTRS`. -/
def ABS_ATTRS : List Str := ["src", "href", "action", "data-src", "data-href"].map String.data

/-- Ordered alternation over the attribute names. -/
def firstMatchCI : List Str → Str → Option (Str × Str)
  | [], _ => none
  | n :: ns, s =>
    match matchCI n s with
    | some r => some r
    | none => firstMatchCI ns s

/-- Scan for the closing quote of the lazy group `(.+?)\2`: stops at the
first occurrence of `q`; a newline before it makes the match fail
(`.` does not match newline). -/
def lazyScan (q : Char) : Str → Option (Str × Str)
  | [] => none
  | d :: t =>
    if d = q then some ([], t)
    else if d = Char.ofNat 10 then none
    else (lazyScan q t).map (fun r => (d :: r.1, r.2))

/-- The lazy value `(.+?)` before the back-referenced quote: at least
one character, so the first character is consumed unconditionally (even
if it equals the quote), then the scan looks for the closing quote. -/
def lazyValue (q : Char) : Str → Option (Str × Str)
  | [] => none
  | c :: t =>
    if c = Char.ofNat 10 then none
    else (lazyScan q t).map (fun r => (c :: r.1, r.2))

/-- Match the attribute pattern
`\b(src|href|action|data-src|data-href)\s*=\s*(['"])(.+?)\2` at the
head of `s` (the word boundary is checked by the caller).  Returns the
attribute name as written, the quote, the captured value, the whole
matched text (`group(0)`) and the rest of the input. -/
def tryMatchAttr (s : Str) : Option (Str × Char × Str × Str × Str) :=
  match firstMatchCI ABS_ATTRS s with
  | none => none
  | some (attr, r1) =>
    let sp1 := r1.takeWhile isSpaceB
    let r2 := r1.dropWhile isSpaceB
    match r2 with
    | c :: r3 =>
      if c = Char.ofNat 61 then
        let sp2 := r3.takeWhile isSpaceB
        let r4 := r3.dropWhile isSpaceB
        match r4 with
        | q :: r5 =>
          if q = Char.ofNat 34 ∨ q = Char.ofNat 39 then
            match lazyValue q r5 with
            | some (val, rest) =>
              some (attr, q, val,
                attr ++ sp1 ++ [Char.ofNat 61] ++ sp2 ++ [q] ++ val ++ [q], rest)
            | none => none
          else none
        | [] => none
      else none
    | [] => none

/-- The skip test of `repl`:
`val.startswith(("javascript:", "mailto:", "data:", "tel:"))`
(case-sensitive). -/
def skipScheme (val : Str) : Bool :=
  ("javascript:".data).isPrefixOf val || ("mailto:".data).isPrefixOf val ||
    ("data:".data).isPrefixOf val || ("tel:".data).isPrefixOf val

/-- Source `PROXY_PREFIX = "/embed/proxy?u="`. -/
def proxyPrefixStr : Str := "/embed/proxy?u=".data

/-- The rewritten reference `f"{PROXY_PREFIX}{b64(abs_url)}"` with
`abs_url = absolutize(val, base_url)`. -/
def proxyRef (base val : Str) : Str := proxyPrefixStr ++ b64 (absolutize val base)

/-- The attribute `re.sub` pass: left-to-right scan; on a match, `repl`
emits either `group(0)` (skip-list schemes) or
`f"{attr}={quote}{prox_url}{quote}"`, and scanning resumes after the
match.  Fuel equals the input length; every step consumes at least one
character. -/
def rewriteAttrsGo (base : Str) : Nat → Option Char → Str → Str
  | 0, _, s => s
  | _ + 1, _, [] => []
  | fuel + 1, prev, c :: rest =>
    match (if wordBoundary prev c then tryMatchAttr (c :: rest) else none) with
    | some (attr, q, val, orig, after) =>
      (if skipScheme val then orig
       else attr ++ [Char.ofNat 61] ++ [q] ++ proxyRef base val ++ [q]) ++
        rewriteAttrsGo base fuel (some q) after
    | none => c :: rewriteAttrsGo base fuel (some c) rest

/-- Drop a case-insensitive literal. -/
def dropCI (lit s : Str) : Option Str := (matchCI lit s).map (fun r => r.2)

/-- `\s+`: one or more spaces (greedy). -/
def spaces1 (s : Str) : Option Str :=
  match s with
  | c :: t => if isSpaceB c then some (t.dropWhile isSpaceB) else none
  | [] => none

/-- The character class `["']`. -/
def quoteCls (s : Str) : Option Str :=
  match s with
  | c :: t => if c = Char.ofNat 34 ∨ c = Char.ofNat 39 then some t else none
  | [] => none

/-- `\d+`: one or more digits (greedy). -/
def digits1 (s : Str) : Option Str :=
  match s with
  | c :: t => if isDigitB c then some (t.dropWhile isDigitB) else none
  | [] => none

/-- Match the meta-refresh pattern
`<meta\s+http-equiv=["']refresh["']\s+content=["']\s*\d+\s*;\s*url=([^"']+)["']\s*/?>`
(case-insensitive) at the head of `s`, returning the captured target
and the rest of the input. -/
def tryMatchMeta (s : Str) : Option (Str × Str) := do
  let r1 ← dropCI "<meta".data s
  let r2 ← spaces1 r1
  let r3 ← dropCI "http-equiv=".data r2
  let r4 ← quoteCls r3
  let r5 ← dropCI "refresh".data r4
  let r6 ← quoteCls r5
  let r7 ← spaces1 r6
  let r8 ← dropCI "content=".data r7
  let r9 ← quoteCls r8
  let r10 := r9.dropWhile isSpaceB
  let r11 ← digits1 r10
  let r12 := r11.dropWhile isSpaceB
  let r13 ← (match r12 with
    | c :: t => if c = Char.ofNat 59 then some t else none
    | [] => none)
  let r14 := r13.dropWhile isSpaceB
  let r15 ← dropCI "url=".data r14
  let target := r15.takeWhile (fun c => ¬(c = Char.ofNat 34 ∨ c = Char.ofNat 39))
  let r16 := r15.dropWhile (fun c => ¬(c = Char.ofNat 34 ∨ c = Char.ofNat 39))
  if target = [] then none
  else do
    let r17 ← quoteCls r16
    let r18 := r17.dropWhile isSpaceB
    match r18 with
    | c :: t =>
      if c = Char.ofNat 62 then some (target, t)
      else if c = Char.ofNat 47 then
        match t with
        | c2 :: t2 => if c2 = Char.ofNat 62 then some (target, t2) else none
        | [] => none
      else none
    | [] => none

/-- The normalized replacement tag
`<meta http-equiv="refresh" content="0; url={PROXY_PREFIX}{b64(absolutize(target, base))}">`. -/
def metaRepl (base target : Str) : Str :=
  "<meta http-equiv=\"refresh\" content=\"0; url=".data ++ proxyRef base target ++ "\">".data

/-- The meta-refresh `re.sub` pass (same scanning discipline as the
attribute pass; the pattern needs no word-boundary check). -/
def rewriteMetaGo (base : Str) : Nat → Str → Str
  | 0, s => s
  | _ + 1, [] => []
  | fuel + 1, c :: rest =>
    match tryMatchMeta (c :: rest) with
    | some (target, after) => metaRepl base target ++ rewriteMetaGo base fuel after
    | none => c :: rewriteMetaGo base fuel rest

/-- Source `rewrite_html(html, base_url)`: the attribute pass followed
by the meta-refresh pass. -/
def rewrite_html (html base_url : Str) : Str :=
  let h1 := rewriteAttrsGo base_url html.length none html
  rewriteMetaGo base_url h1.length h1

/-! ### Forwarding proxy (`proxy` view).  The upstream world is an
oracle `fetch` passed to the model; the model also returns the list of
dispatches actually issued, so "no upstream call" is the empty list.
Routing models the Flask decorator `methods=["GET", "POST"]` (other
methods are rejected 405 before the view body runs); werkzeug's
automatic OPTIONS/HEAD handling is outside the model. -/

/-- ASCII uppercasing (Python `.upper()` on ASCII method names). -/
def upperAscii (c : Char) : Char :=
  if 97 ≤ c.toNat ∧ c.toNat ≤ 122 then Char.ofNat (c.toNat - 32) else c

/-- Uppercase a string, ASCII-wise. -/
def upperStr (s : Str) : Str := s.map upperAscii

/-- Substring test (Python `in` on strings). -/
def containsSub (needle : Str) : Str → Bool
  | [] => needle.isEmpty
  | c :: rest => needle.isPrefixOf (c :: rest) || containsSub needle rest

/-- An inbound request as the view sees it: method, the `u` query
parameter (`none` when absent), the three inbound headers the code
reads, and the raw body. -/
structure InboundRequest where
  method : Str
  u : Option Str
  userAgent : Option Str
  acceptHdr : Option Str
  acceptLanguage : Option Str
  body : List Nat
deriving DecidableEq

/-- The upstream response as `requests` returns it after following
redirects: status, optional Content-Type header, body bytes, decoded
text, and the final URL after all redirects (`upstream.url`, which the
source never reads). -/
structure UpstreamResponse where
  statusCode : Nat
  contentType : Option Str
  content : List Nat
  text : Str
  url : Str
deriving DecidableEq

/-- Result of `requests.request(...)`: a response, or a
`RequestException` (network failure / timeout). -/
inductive FetchResult where
  | ok (r : UpstreamResponse)
  | err (msg : Str)
deriving DecidableEq

/-- One outbound request issued to upstream. -/
structure Dispatch where
  method : Str
  target : Str
  headers : List (Str × Str)
  data : Option (List Nat)
deriving DecidableEq

/-- Body of the response returned to the inbound caller. -/
inductive RespBody where
  | text (s : Str)
  | bytes (b : List Nat)
  | empty
deriving DecidableEq

/-- Response returned to the inbound caller. -/
structure HttpResponse where
  status : Nat
  contentType : Option Str
  body : RespBody
deriving DecidableEq

/-- The default User-Agent of the source. -/
def defaultUA : Str :=
  "Mozilla/5.0 (Windows NT 10.0; Win64; x64) AppleWebKit/537.36 (KHTML, like Gecko) Chrome Safari".data

/-- The curated outbound header set of the source. -/
def builtHeaders (req : InboundRequest) (target : Str) : List (Str × Str) :=
  [("User-Agent".data, req.userAgent.getD defaultUA),
    ("Accept".data, req.acceptHdr.getD "*/*".data),
    ("Accept-Language".data, req.acceptLanguage.getD "en-US,en;q=0.9".data),
    ("Referer".data, target)]

/-- The view body of `proxy`: token extraction and decoding, dispatch,
HTML rewriting keyed on a case-insensitive `text/html` substring test
of the Content-Type, passthrough otherwise.  Returns the response and
the list of upstream dispatches made. -/
def proxyView (fetch : Dispatch → FetchResult) (req : InboundRequest) :
    HttpResponse × List Dispatch :=
  match req.u with
  | none => (⟨400, none, RespBody.empty⟩, [])
  | some u =>
    if u = [] then (⟨400, none, RespBody.empty⟩, [])
    else
      match ub64 u with
      | none => (⟨400, none, RespBody.empty⟩, [])
      | some target =>
        let method := upperStr req.method
        let headers := builtHeaders req target
        let data := if method = "POST".data then some req.body else none
        let d : Dispatch := ⟨method, target, headers, data⟩
        match fetch d with
        | FetchResult.err e =>
          (⟨502, none, RespBody.text ("Upstream error: ".data ++ e)⟩, [d])
        | FetchResult.ok up =>
          let ct := up.contentType.getD []
          if containsSub "text/html".data (lowerStr ct) = true then
            (⟨up.statusCode, some ct, RespBody.text (rewrite_html up.text target)⟩, [d])
          else
            (⟨up.statusCode, some ct, RespBody.bytes up.content⟩, [d])

/-- The routed endpoint: `methods=["GET", "POST"]`. -/
def proxyRoute (fetch : Dispatch → FetchResult) (req : InboundRequest) :
    HttpResponse × List Dispatch :=
  if upperStr req.method = "GET".data ∨ upperStr req.method = "POST".data then
    proxyView fetch req
  else (⟨405, none, RespBody.empty⟩, [])

/-! ### Claims about the rewriter -/

/-- C2: every matched quoted value of a recognized link-bearing
attribute whose value does not start with a skip-list scheme is
rewritten to `PROXY_PREFIX` (the proxy path followed by `?u=`) plus the
token of the value resolved against the base, with the original quote
character preserved on both sides; and with base `http://h/` the input
`<img src="a.png">` rewrites to
`<img src="{PROXY_PREFIX}{b64("http://h/a.png")}">`. -/
theorem c2_attr_rewrite :
    (∀ (base : Str) (fuel : Nat) (prev : Option Char) (c : Char)
        (rest attr val orig after : Str) (q : Char),
      wordBoundary prev c = true →
      tryMatchAttr (c :: rest) = some (attr, q, val, orig, after) →
      skipScheme val = false →
      rewriteAttrsGo base (fuel + 1) prev (c :: rest) =
        attr ++ [Char.ofNat 61] ++ [q] ++ proxyPrefixStr ++
          b64 (absolutize val base) ++ [q] ++
          rewriteAttrsGo base fuel (some q) after) ∧
    rewrite_html "<img src=\"a.png\">".data "http://h/".data =
      "<img src=\"".data ++ proxyPrefixStr ++ b64 "http://h/a.png".data ++ "\">".data := by
  constructor
  · intro base fuel prev c rest attr val orig after q hb hm hs
    simp only [rewriteAttrsGo, hb, if_true, hm, hs, Bool.false_eq_true, if_false, proxyRef,
      List.append_assoc]
  · decide

theorem c2_witness :
    wordBoundary (some ' ') 's' = true ∧
      tryMatchAttr ('s' :: "rc=\"a.png\">".data) =
        some ("src".data, Char.ofNat 34, "a.png".data, "src=\"a.png\"".data, ">".data) ∧
      skipScheme "a.png".data = false ∧
      rewriteAttrsGo "http://h/".data (0 + 1) (some ' ') ('s' :: "rc=\"a.png\">".data) =
        "src".data ++ [Char.ofNat 61] ++ [Char.ofNat 34] ++ proxyPrefixStr ++
          b64 (absolutize "a.png".data "http://h/".data) ++ [Char.ofNat 34] ++
          rewriteAttrsGo "http://h/".data 0 (some (Char.ofNat 34)) ">".data :=
  ⟨by decide, by decide, by decide,
    c2_attr_rewrite.1 "http://h/".data 0 (some ' ') 's' "rc=\"a.png\">".data "src".data
      "a.png".data "src=\"a.png\"".data ">".data (Char.ofNat 34)
      (by decide) (by decide) (by decide)⟩

/-- C8: a matched attribute whose quoted value starts with the
case-sensitive prefix `javascript:`, `mailto:`, `data:` or `tel:` is
emitted byte-identically (`group(0)`), and in particular
`<a href="javascript:alert(1)">` is returned unchanged by
`rewrite_html`. -/
theorem c8_skiplist :
    (∀ (base : Str) (fuel : Nat) (prev : Option Char) (c : Char)
        (rest attr val orig after : Str) (q : Char),
      wordBoundary prev c = true →
      tryMatchAttr (c :: rest) = some (attr, q, val, orig, after) →
      skipScheme val = true →
      rewriteAttrsGo base (fuel + 1) prev (c :: rest) =
        orig ++ rewriteAttrsGo base fuel (some q) after) ∧
    rewrite_html "<a href=\"javascript:alert(1)\">".data "http://h/".data =
      "<a href=\"javascript:alert(1)\">".data := by
  constructor
  · intro base fuel prev c rest attr val orig after q hb hm hs
    simp only [rewriteAttrsGo, hb, if_true, hm, hs, if_true]
  · decide

theorem c8_witness :
    wordBoundary (some ' ') 'h' = true ∧
      tryMatchAttr ('h' :: "ref=\"javascript:alert(1)\">".data) =
        some ("href".data, Char.ofNat 34, "javascript:alert(1)".data,
          "href=\"javascript:alert(1)\"".data, ">".data) ∧
      skipScheme "javascript:alert(1)".data = true ∧
      rewriteAttrsGo "http://h/".data (0 + 1) (some ' ')
          ('h' :: "ref=\"javascript:alert(1)\">".data) =
        "href=\"javascript:alert(1)\"".data ++
          rewriteAttrsGo "http://h/".data 0 (some (Char.ofNat 34)) ">".data :=
  ⟨by decide, by decide, by decide,
    c8_skiplist.1 "http://h/".data 0 (some ' ') 'h' "ref=\"javascript:alert(1)\">".data
      "href".data "javascript:alert(1)".data "href=\"javascript:alert(1)\"".data ">".data
      (Char.ofNat 34) (by decide) (by decide) (by decide)⟩

/-- C7: a matched meta-refresh tag is replaced by the normalized
`<meta http-equiv="refresh" content="0; url={PROXY_PREFIX}{token}">`
with the token encoding the target resolved against the base and the
original delay discarded in favour of `0`; and with base `http://h/`
the tag `<meta http-equiv="refresh" content="5; url=/next">` rewrites
to the normalized tag with the token of `http://h/next`. -/
theorem c7_meta_refresh :
    (∀ (base : Str) (fuel : Nat) (c : Char) (rest target after : Str),
      tryMatchMeta (c :: rest) = some (target, after) →
      rewriteMetaGo base (fuel + 1) (c :: rest) =
        "<meta http-equiv=\"refresh\" content=\"0; url=".data ++ proxyPrefixStr ++
          b64 (absolutize target base) ++ "\">".data ++ rewriteMetaGo base fuel after) ∧
    rewrite_html "<meta http-equiv=\"refresh\" content=\"5; url=/next\">".data
        "http://h/".data =
      "<meta http-equiv=\"refresh\" content=\"0; url=".data ++ proxyPrefixStr ++
        b64 "http://h/next".data ++ "\">".data := by
  constructor
  · intro base fuel c rest target after hm
    simp only [rewriteMetaGo, hm, metaRepl, proxyRef, List.append_assoc]
  · decide

theorem c7_witness :
    tryMatchMeta ('<' :: "meta http-equiv=\"refresh\" content=\"5; url=/next\">".data) =
        some ("/next".data, "".data) ∧
      rewriteMetaGo "http://h/".data (0 + 1)
          ('<' :: "meta http-equiv=\"refresh\" content=\"5; url=/next\">".data) =
        "<meta http-equiv=\"refresh\" content=\"0; url=".data ++ proxyPrefixStr ++
          b64 (absolutize "/next".data "http://h/".data) ++ "\">".data ++
          rewriteMetaGo "http://h/".data 0 "".data :=
  ⟨by decide,
    c7_meta_refresh.1 "http://h/".data 0 '<'
      "meta http-equiv=\"refresh\" content=\"5; url=/next\">".data "/next".data "".data
      (by decide)⟩

/-- C10 counterexample: in `<img src="" href="x">` with base
`http://h/`, the empty-valued `src` attribute is NOT left unchanged:
the lazy value group extends to the next quote, capturing `" href=`,
and the whole span `src="" href="` is rewritten, so the output no
longer contains `src=""`. -/
theorem c10_counterexample :
    rewrite_html "<img src=\"\" href=\"x\">".data "http://h/".data =
      "<img src=\"".data ++ proxyPrefixStr ++ b64 "http://h/\" href=".data ++ "\"x\">".data ∧
      containsSub "src=\"\"".data
        (rewrite_html "<img src=\"\" href=\"x\">".data "http://h/".data) = false := by
  decide

/-- C10 amended: the value-capturing pattern requires at least one
character, so an empty quoted value is never itself captured or
rewritten; when the quote character does not occur again later in the
document the attribute (and document) is left unchanged, e.g.
`<img src="">` is returned unchanged. -/
theorem c10_amended :
    rewrite_html "<img src=\"\">".data "http://h/".data = "<img src=\"\">".data := by decide

/-! ### Claims about the forwarding proxy -/

/-- C6: an inbound request whose `u` parameter is missing, empty or
undecodable gets a 400-class response and no upstream dispatch is made
(for non-routed methods the 405 rejection is also 400-class and also
makes no upstream call). -/
theorem c6_reject (fetch : Dispatch → FetchResult) (req : InboundRequest)
    (h : req.u = none ∨ req.u = some [] ∨ (∃ t, req.u = some t ∧ ub64 t = none)) :
    (400 ≤ (proxyRoute fetch req).1.status ∧ (proxyRoute fetch req).1.status < 500) ∧
      (proxyRoute fetch req).2 = [] := by
  unfold proxyRoute
  split_ifs with hm
  · rcases h with h | h | ⟨t, ht, hub⟩
    · simp [proxyView, h]
    · simp [proxyView, h]
    · by_cases htnil : t = []
      · rw [htnil] at hub
        exact absurd hub (by decide)
      · simp [proxyView, ht, htnil, hub]
  · simp

/-- A fetch oracle that always fails (never consulted on reject paths). -/
def fetchErr : Dispatch → FetchResult := fun _ => FetchResult.err []

/-- A GET request with no `u` parameter. -/
def reqNoToken : InboundRequest := ⟨"GET".data, none, none, none, none, []⟩

/-- A PUT request carrying a valid token (the token of `http://h/`). -/
def reqPutTok : InboundRequest :=
  ⟨"PUT".data, some "aHR0cDovL2gv".data, none, none, none, []⟩

/-- A lowercase-get request carrying a valid token. -/
def reqGetTok : InboundRequest :=
  ⟨"get".data, some "aHR0cDovL2gv".data, none, none, none, []⟩

theorem c6_witness :
    (reqNoToken.u = none ∨ reqNoToken.u = some [] ∨
        (∃ t, reqNoToken.u = some t ∧ ub64 t = none)) ∧
      ((400 ≤ (proxyRoute fetchErr reqNoToken).1.status ∧
          (proxyRoute fetchErr reqNoToken).1.status < 500) ∧
        (proxyRoute fetchErr reqNoToken).2 = []) :=
  ⟨Or.inl rfl, c6_reject fetchErr reqNoToken (Or.inl rfl)⟩

/-- C9 counterexample: a PUT request carrying a perfectly valid token
never reaches upstream dispatch: the route only accepts GET and POST,
so the response is 405 and the dispatch list is empty, contradicting
"any HTTP method reaches upstream dispatch with the same method". -/
theorem c9_counterexample :
    ub64 "aHR0cDovL2gv".data = some "http://h/".data ∧
      (proxyRoute fetchErr reqPutTok).1.status = 405 ∧
      (proxyRoute fetchErr reqPutTok).2 = [] := by
  refine ⟨by decide, by decide, by decide⟩

/-- C9 amended: the endpoint is routed for GET and POST only; a
valid-token GET or POST request reaches upstream dispatch exactly once,
using the same (uppercased) inbound method, and the inbound body is
forwarded exactly when the method is POST (`data=None` otherwise). -/
theorem c9_amended (fetch : Dispatch → FetchResult) (req : InboundRequest) (u target : Str)
    (hm : upperStr req.method = "GET".data ∨ upperStr req.method = "POST".data)
    (hu : req.u = some u) (hne : u ≠ []) (hub : ub64 u = some target) :
    (proxyRoute fetch req).2 =
      [⟨upperStr req.method, target, builtHeaders req target,
        if upperStr req.method = "POST".data then some req.body else none⟩] := by
  simp only [proxyRoute, if_pos hm, proxyView, hu, if_neg hne, hub]
  cases hf : fetch ⟨upperStr req.method, target, builtHeaders req target,
      if upperStr req.method = "POST".data then some req.body else none⟩ with
  | ok up => simp only [hf]; split_ifs <;> rfl
  | err e => simp only [hf]

theorem c9_witness :
    (upperStr reqGetTok.method = "GET".data ∨ upperStr reqGetTok.method = "POST".data) ∧
      reqGetTok.u = some "aHR0cDovL2gv".data ∧
      ub64 "aHR0cDovL2gv".data = some "http://h/".data ∧
      (proxyRoute fetchErr reqGetTok).2 =
        [⟨upperStr reqGetTok.method, "http://h/".data,
          builtHeaders reqGetTok "http://h/".data,
          if upperStr reqGetTok.method = "POST".data then some reqGetTok.body else none⟩] :=
  ⟨Or.inl (by decide), rfl, by decide,
    c9_amended fetchErr reqGetTok "aHR0cDovL2gv".data "http://h/".data
      (Or.inl (by decide)) rfl (by decide) (by decide)⟩

/-- C3 amended: for an HTML upstream response, the body returned to the
caller is `rewrite_html` of the upstream text with the ORIGINALLY
DECODED target URL as base (the source passes `target`, not
`upstream.url`); this coincides with the final upstream URL only when
no redirect was followed. -/
theorem c3_amended (fetch : Dispatch → FetchResult) (req : InboundRequest) (u target : Str)
    (up : UpstreamResponse)
    (hm : upperStr req.method = "GET".data ∨ upperStr req.method = "POST".data)
    (hu : req.u = some u) (hne : u ≠ []) (hub : ub64 u = some target)
    (hf : fetch ⟨upperStr req.method, target, builtHeaders req target,
      if upperStr req.method = "POST".data then some req.body else none⟩ = FetchResult.ok up)
    (hct : containsSub "text/html".data (lowerStr (up.contentType.getD [])) = true) :
    (proxyRoute fetch req).1.body = RespBody.text (rewrite_html up.text target) := by
  simp only [proxyRoute, if_pos hm, proxyView, hu, if_neg hne, hub, hf, hct, if_true]

/-- An upstream response whose final URL (`upstream.url`, after
redirects) differs from the decoded target, with a relative link in its
HTML body. -/
def upRedirected : UpstreamResponse :=
  ⟨200, some "text/html".data, [], "<a href=\"p\">".data, "http://r/dir/".data⟩

/-- A fetch oracle producing `upRedirected`. -/
def fetchRedirected : Dispatch → FetchResult := fun _ => FetchResult.ok upRedirected

/-- A GET request carrying the token of `http://h/`. -/
def reqGetUpper : InboundRequest :=
  ⟨"GET".data, some "aHR0cDovL2gv".data, none, none, none, []⟩

/-- C3 counterexample: with decoded target `http://h/` and an upstream
whose final URL after redirects is `http://r/dir/`, the proxied body is
`rewrite_html` of the upstream text with base `http://h/` — the decoded
target — and that differs from rewriting with the final upstream URL as
base, so the rewriter's base is NOT the final upstream URL. -/
theorem c3_counterexample :
    ub64 "aHR0cDovL2gv".data = some "http://h/".data ∧
      upRedirected.url ≠ "http://h/".data ∧
      (proxyRoute fetchRedirected reqGetUpper).1.body =
        RespBody.text (rewrite_html upRedirected.text "http://h/".data) ∧
      rewrite_html upRedirected.text "http://h/".data ≠
        rewrite_html upRedirected.text upRedirected.url := by
  refine ⟨by decide, by decide, by decide, by decide⟩

theorem c3_witness :
    ub64 "aHR0cDovL2gv".data = some "http://h/".data ∧
      containsSub "text/html".data (lowerStr (upRedirected.contentType.getD [])) = true ∧
      (proxyRoute fetchRedirected reqGetUpper).1.body =
        RespBody.text (rewrite_html upRedirected.text "http://h/".data) :=
  ⟨by decide, by decide,
    c3_amended fetchRedirected reqGetUpper "aHR0cDovL2gv".data "http://h/".data upRedirected
      (Or.inl (by decide)) rfl (by decide) (by decide) rfl (by decide)⟩
